import Mathlib

/-! Profiler scope operations (`torch/csrc/autograd/record_function_ops.cpp`).

A shallow embedding of the three operator bodies of the file,
`record_function_enter`, `record_function_exit` and
`_call_end_callbacks_on_fut` (with its lambda `futureProfilingFunc`), as
state-passing functions over an explicit `World`.

The collaborators the file only calls (`at::RecordFunction`,
`at::cpp_custom_type_hack`, `at::ThreadLocalState`, `c10::ivalue::Future`)
are not among the sources; each is modelled from the specification and its
definition says so.
-/

namespace profiler

/-! ## Data model -/

/-- Modelled from the spec: `at::RecordScope` (ATen/record_function.h), the
scope kinds; the file only names `USER_SCOPE`. -/
inductive RecordScope
  | FUNCTION
  | USER_SCOPE
  deriving DecidableEq, Repr

/-- Modelled from the spec: `at::RecordFunction` (ATen/record_function.h), the
Span of the data model: a name, a scope kind, a back-reference to the parent
span (an address, not owned) and the `active` flag. -/
structure RecordFunction where
  scope : RecordScope
  name : String
  parent : Option Nat
  active : Bool
  deriving DecidableEq, Repr

/-- Modelled from the spec: `at::ThreadLocalState` (ATen/ThreadLocalState.h), a
snapshot of the thread-local instrumentation context; its content is not
inspected by this file, so it is an identifier. -/
structure ThreadLocalState where
  ident : Nat
  deriving DecidableEq, Repr

/-- Modelled from the spec: `at::Tensor` used as the transport handle
(ATen/cpp_custom_type_hack.h). A tensor is undefined, or wraps the
`RecordFunction` stored at an address, or carries some other payload. -/
inductive Tensor
  | undefinedTensor
  | recordFunction (addr : Nat)
  | foreign (payload : Nat)
  deriving DecidableEq, Repr

/-- Modelled from the spec: `c10::IValue`, the resolved value of a pending
result; three shapes of literal value are enough here. -/
inductive IValue
  | None
  | Int (i : Int)
  | String (s : String)
  deriving DecidableEq, Repr

/-- Fatal errors: a failed `TORCH_CHECK` of the exact-type downcast, or a
failed `TORCH_INTERNAL_ASSERT` / `AT_ASSERT`. -/
inductive Fatal
  | typeError (msg : String)
  | internalAssert (msg : String)
  deriving DecidableEq, Repr

/-- Observable trace. `startCallbacks` / `endCallbacks` are the firings of the
instrumentation callbacks of a span, `endCalled` every invocation of
`RecordFunction::end`, each with the thread-local context it ran under;
`constValue` is a read of a resolved value, `markCompleted` a resolution. -/
inductive Event
  | startCallbacks (addr : Nat) (tls : ThreadLocalState)
  | endCalled (addr : Nat) (tls : ThreadLocalState)
  | endCallbacks (addr : Nat) (tls : ThreadLocalState)
  | constValue (fut : Nat) (v : IValue)
  | markCompleted (fut : Nat) (v : IValue)
  deriving DecidableEq, Repr

/-- The captures of the lambda `futureProfilingFunc`
(`[fut, handle, tls_state = std::move(tls_state)]`). The lambda is not
`mutable`, so its captures never change. -/
structure FutureProfilingFunc where
  fut : Nat
  handle : Tensor
  tls_state : ThreadLocalState
  deriving DecidableEq, Repr

/-- What `Future::then` attaches to a pending result: the continuation body
and the new pending result it resolves. -/
structure Callback where
  cb : FutureProfilingFunc
  target : Nat
  deriving DecidableEq, Repr

/-- Modelled from the spec: `c10::ivalue::Future` (ATen/core/ivalue_inl.h), the
pending asynchronous result: one-shot, `value = none` while pending, with the
continuations attached to it. -/
structure Future where
  value : Option IValue
  callbacks : List Callback
  deriving DecidableEq, Repr

/-- The state the operations act on: the `RecordFunction` objects by address,
the pending results by address, and for the running thread its current active
span and its thread-local context. -/
structure World where
  heap : Nat → RecordFunction
  nextRec : Nat
  current : Option Nat
  tls : ThreadLocalState
  futures : Nat → Future
  nextFut : Nat
  events : List Event

/-- The same shared objects seen from another thread, whose current span is
`current` and whose thread-local context is `tls`. -/
def World.onThread (current : Option Nat) (tls : ThreadLocalState) (w : World) : World :=
  { w with current := current, tls := tls }

/-- Store `r` at address `a`. -/
def World.setRec (w : World) (a : Nat) (r : RecordFunction) : World :=
  { w with heap := fun i => if i = a then r else w.heap i }

/-- Store `f` at future address `a`. -/
def World.setFut (w : World) (a : Nat) (f : Future) : World :=
  { w with futures := fun i => if i = a then f else w.futures i }

/-- Append one event to the trace. -/
def World.log (w : World) (e : Event) : World :=
  { w with events := w.events ++ [e] }

/-! ## Collaborators, modelled from the specification -/

/-- Modelled from the spec: the constructor `RecordFunction(scope)`, "Span
construction with a scope kind". The object gets a fresh address; it has no
name and no parent and is not active until `before` is called. -/
def RecordFunction.ctor (scope : RecordScope) (w : World) : Nat × World :=
  (w.nextRec,
   { w.setRec w.nextRec { scope := scope, name := "", parent := none, active := false }
     with nextRec := w.nextRec + 1 })

/-- Modelled from the spec: `RecordFunction::current()`, the thread-local
"current active span" lookup. -/
def RecordFunction.current (w : World) : Option Nat :=
  w.current

/-- Modelled from the spec: `RecordFunction::before(name)`: the span "records
before(name) against whatever is now the active parent and becomes active":
it takes the name, its parent is the thread's current span, it becomes the
thread's current span, and the start callbacks fire. -/
def RecordFunction.before (this : Nat) (name : String) (w : World) : World :=
  ({ w.setRec this { w.heap this with name := name, parent := w.current, active := true }
     with current := some this }).log (Event.startCallbacks this w.tls)

/-- Modelled from the spec: `RecordFunction::end()`, which "deactivates and
fires completion callbacks", at most once: on a span that is not active it
does nothing. Ending the thread's current span makes its parent current. -/
def RecordFunction.end_ (this : Nat) (w : World) : World :=
  let w1 := w.log (Event.endCalled this w.tls)
  if (w.heap this).active then
    ({ w1.setRec this { w.heap this with active := false }
       with current := if w.current = some this then (w.heap this).parent else w.current }).log
      (Event.endCallbacks this w.tls)
  else
    w1

/-- Modelled from the spec: `cpp_custom_type_hack::create`, which wraps the
owned `RecordFunction` in a tensor. -/
def cpp_custom_type_hack.create (addr : Nat) : Tensor :=
  Tensor.recordFunction addr

/-- Modelled from the spec: `cpp_custom_type_hack::cast<RecordFunction>`, the
exact-type downcast that "fails fatally if the handle does not contain a Span
of the expected kind". -/
def cpp_custom_type_hack.cast (packed : Tensor) : Except Fatal Nat :=
  match packed with
  | Tensor.recordFunction addr => Except.ok addr
  | _ => Except.error (Fatal.typeError "Expected temporary cpp type wrapper")

/-- Modelled from the spec: `Tensor::defined()`. -/
def Tensor.defined (t : Tensor) : Bool :=
  match t with
  | Tensor.undefinedTensor => false
  | _ => true

/-- Modelled from the spec: the default constructor `ThreadLocalState()`, a
snapshot of the calling thread's context. -/
def ThreadLocalState.ctor (w : World) : ThreadLocalState :=
  w.tls

/-- Modelled from the spec: `ThreadLocalState::setThreadLocalState`, which
installs a snapshot as the running thread's context. -/
def ThreadLocalState.setThreadLocalState (s : ThreadLocalState) (w : World) : World :=
  { w with tls := s }

/-- Modelled from the spec: `Future::constValue()`, the resolved value of a
pending result; reading one that has not resolved is an assertion failure. -/
def Future.constValue (fut : Nat) (w : World) : Except Fatal IValue × World :=
  match (w.futures fut).value with
  | some v => (Except.ok v, w.log (Event.constValue fut v))
  | none => (Except.error (Fatal.internalAssert "completed()"), w)

/-! ## The operator bodies -/

/-- Lines 21-29 of `record_function_enter`: the repair step. -/
def record_function_enter.repair (w : World) : World :=
  match RecordFunction.current w with
  | some current =>
    if (w.heap current).name = "profiler::_record_function_enter" then
      RecordFunction.end_ current w
    else
      w
  | none => w

/-- `record_function_enter`: creates a new profiling scope using
`RecordFunction` and invokes its starting callbacks. -/
def record_function_enter (name : String) (w : World) : Tensor × World :=
  let (rec, w1) := RecordFunction.ctor RecordScope.USER_SCOPE w
  let w2 := record_function_enter.repair w1
  let w3 := RecordFunction.before rec name w2
  (cpp_custom_type_hack.create rec, w3)

/-- `getRecordFunctionFromTensor`. -/
def getRecordFunctionFromTensor (handle : Tensor) : Except Fatal Nat :=
  cpp_custom_type_hack.cast handle

/-- Lines 44-48 of `record_function_exit`: the repair step. -/
def record_function_exit.repair (w : World) : World :=
  match RecordFunction.current w with
  | some current =>
    if (w.heap current).name = "profiler::_record_function_exit" then
      RecordFunction.end_ current w
    else
      w
  | none => w

/-- `record_function_exit`: ends the profiling scope created with
`record_function_enter`. -/
def record_function_exit (handle : Tensor) (w : World) : Except Fatal Unit × World :=
  match getRecordFunctionFromTensor handle with
  | Except.error e => (Except.error e, w)
  | Except.ok rec =>
    let w1 := record_function_exit.repair w
    (Except.ok (), RecordFunction.end_ rec w1)

/-- The message of the `TORCH_INTERNAL_ASSERT` of the lambda (lines 61-65). -/
def futureProfilingFunc.assertMessage : String :=
  "Undefined RecordFunction handle. This can happen if the handle is not correctly " ++
  "persisted and is destroyed before the future is realized."

/-- The body of the lambda `futureProfilingFunc` (lines 60-74), invoked with
its captures `c`. The `ThreadLocalStateGuard` installs the captured context
and puts the previous one back when the body is left, also by an error. -/
def futureProfilingFunc (c : FutureProfilingFunc) (w : World) : Except Fatal IValue × World :=
  if c.handle.defined then
    let prev_state := ThreadLocalState.ctor w
    let w1 := ThreadLocalState.setThreadLocalState c.tls_state w
    let (r, w3) :=
      match getRecordFunctionFromTensor c.handle with
      | Except.error e => (Except.error e, w1)
      | Except.ok rec =>
        let w2 := RecordFunction.end_ rec w1
        Future.constValue c.fut w2
    (r, ThreadLocalState.setThreadLocalState prev_state w3)
  else
    (Except.error (Fatal.internalAssert futureProfilingFunc.assertMessage), w)

/-- Modelled from the spec: resolution of a pending result
(`Future::markCompleted`). A pending result resolves once; its continuations
then run, in order, on the resolving thread, and each resolves its own target
with the value its body returns. A fatal error of a body aborts the
resolution. `none` is returned only when the nesting of targets exceeds
`fuel`. -/
def Future.markCompleted : Nat → Nat → IValue → World → Option (Except Fatal Unit × World)
  | 0, _, _, _ => none
  | fuel + 1, fut, value, w =>
    match (w.futures fut).value with
    | some _ => some (Except.error (Fatal.internalAssert "!completed()"), w)
    | none =>
      let cbs := (w.futures fut).callbacks
      let w1 := (w.setFut fut { value := some value, callbacks := [] }).log
        (Event.markCompleted fut value)
      cbs.foldl
        (fun acc callback =>
          match acc with
          | some (Except.ok (), w2) =>
            match futureProfilingFunc callback.cb w2 with
            | (Except.ok r, w3) => Future.markCompleted fuel callback.target r w3
            | (Except.error e, w3) => some (Except.error e, w3)
          | other => other)
        (some (Except.ok (), w1))

/-- Modelled from the spec: `Future::then(callback, type)`: a new pending
result that resolves, with the value the callback returns, after `fut` has
resolved. When `fut` has already resolved the callback runs at once. -/
def Future.then_ (fut : Nat) (callback : FutureProfilingFunc) (w : World) :
    Except Fatal Nat × World :=
  let child := w.nextFut
  let w1 := { w.setFut child { value := none, callbacks := [] } with nextFut := w.nextFut + 1 }
  match (w1.futures fut).value with
  | none =>
    (Except.ok child,
     w1.setFut fut { w1.futures fut with
       callbacks := (w1.futures fut).callbacks ++ [{ cb := callback, target := child }] })
  | some _ =>
    match futureProfilingFunc callback w1 with
    | (Except.ok r, w2) =>
      (Except.ok child,
       (w2.setFut child { value := some r, callbacks := [] }).log (Event.markCompleted child r))
    | (Except.error e, w2) => (Except.error e, w2)

/-- `_call_end_callbacks_on_fut`: saves the thread-local state, builds the
profiling callback that ends the record function and returns the value of the
passed-in future, and returns a future that completes after it has run. -/
def _call_end_callbacks_on_fut (handle : Tensor) (fut : Nat) (w : World) :
    Except Fatal Nat × World :=
  let tls_state := ThreadLocalState.ctor w
  let futureProfilingFunc : FutureProfilingFunc :=
    { fut := fut, handle := handle, tls_state := tls_state }
  Future.then_ fut futureProfilingFunc w

/-! ## Call sequences -/

/-- One call of the two synchronous operators, with its argument. -/
inductive Call
  | enter (name : String)
  | exit (handle : Tensor)
  deriving DecidableEq, Repr

/-- The world after one call; a call that fails fatally leaves the world as
it was when the error was raised. -/
def Call.run (c : Call) (w : World) : World :=
  match c with
  | Call.enter name => (record_function_enter name w).2
  | Call.exit handle => (record_function_exit handle w).2

/-- The world after a sequence of calls on one thread. -/
def runCalls (cs : List Call) (w : World) : World :=
  cs.foldl (fun w c => c.run w) w

/-- Whether an event is a firing of the end callbacks of the span at `a`. -/
def Event.isEndCallbacksOf (a : Nat) (e : Event) : Bool :=
  match e with
  | Event.endCallbacks b _ => decide (b = a)
  | _ => false

/-- How many times the end callbacks of the span at `a` fired in a trace. -/
def endCallbacksFired (a : Nat) (es : List Event) : Nat :=
  es.countP (Event.isEndCallbacksOf a)

/-- The bookkeeping behind exactly-once closure: the span at `a` is allocated,
and the firings of its end callbacks, plus one while it is still active, make
`total`. -/
def ClosureCount (a total : Nat) (w : World) : Prop :=
  a < w.nextRec ∧
    endCallbacksFired a w.events + (if (w.heap a).active = true then 1 else 0) = total

/-- One step of a scoped use of the operators on one thread: open a scope, or
close the scope opened last among those still open. -/
inductive ScopeCall
  | open_scope (name : String)
  | close_scope
  deriving DecidableEq, Repr

/-- Runs a sequence of scoped steps. `stack` holds the handles still open, the
latest first, so handles are closed in LIFO order. The result lists, for every
span the sequence created, its handle and the world in which
`record_function_enter` was called for it, and gives the final world. -/
def runScoped : List ScopeCall → List Tensor → World → List (Tensor × World) × World
  | [], _, w => ([], w)
  | ScopeCall.open_scope name :: cs, stack, w =>
    let r := record_function_enter name w
    let rest := runScoped cs (r.1 :: stack) r.2
    ((r.1, w) :: rest.1, rest.2)
  | ScopeCall.close_scope :: cs, handle :: stack, w =>
    runScoped cs stack (record_function_exit handle w).2
  | ScopeCall.close_scope :: cs, [], w => runScoped cs [] w

/-- The thread's current span at the moment `rec->before(name)` (line 30)
runs when `record_function_enter` is called in `w`, that is, after lines
20-29: the span that is active immediately before the new scope is created. -/
def record_function_enter.activeBeforeCreation (w : World) : Option Nat :=
  RecordFunction.current
    (record_function_enter.repair (RecordFunction.ctor RecordScope.USER_SCOPE w).2)

/-- The innermost open scope of a stack of addresses, or `base` when none is
open. -/
def topOf (base : Option Nat) (stack : List Nat) : Option Nat :=
  match stack with
  | [] => base
  | a :: _ => some a

/-- The parent recorded in `w` for the span a handle holds. -/
def parentOfHandle (w : World) (handle : Tensor) : Option Nat :=
  match handle with
  | Tensor.recordFunction a => (w.heap a).parent
  | _ => none

/-- The nesting a LIFO sequence of scopes is expected to produce, computed
from the calls alone: every opened scope gets the next address and is nested
under the innermost scope still open, or under `base` when none is. -/
def expectedNesting : List ScopeCall → List Nat → Nat → Option Nat → List (Tensor × Option Nat)
  | [], _, _, _ => []
  | ScopeCall.open_scope _ :: cs, stack, next, base =>
    (Tensor.recordFunction next, topOf base stack) ::
      expectedNesting cs (next :: stack) (next + 1) base
  | ScopeCall.close_scope :: cs, _ :: stack, next, base => expectedNesting cs stack next base
  | ScopeCall.close_scope :: cs, [], next, base => expectedNesting cs [] next base

/-- The open scopes of a thread, innermost first: each is allocated, active,
not named like the enter operator, and nested under the next one (the last
under `base`). -/
def OpenChain (base : Option Nat) : List Nat → World → Prop
  | [], _ => True
  | a :: rest, w =>
    (w.heap a).active = true ∧ (w.heap a).name ≠ "profiler::_record_function_enter" ∧
    (w.heap a).parent = topOf base rest ∧ a < w.nextRec ∧ a ∉ rest ∧ OpenChain base rest w

/-! ## Concrete worlds -/

/-- A span that was never named: what an unused address holds. -/
def RecordFunction.blank : RecordFunction :=
  { scope := RecordScope.FUNCTION, name := "", parent := none, active := false }

/-- A thread on which the user scope "outer" (address 0) is open and the
management span of the enter operator (address 1) is the current span. -/
def worldInEnterOp : World :=
  { heap := fun i =>
      if i = 0 then
        { scope := RecordScope.USER_SCOPE, name := "outer", parent := none, active := true }
      else if i = 1 then
        { scope := RecordScope.FUNCTION, name := "profiler::_record_function_enter",
          parent := some 0, active := true }
      else RecordFunction.blank,
    nextRec := 2,
    current := some 1,
    tls := { ident := 7 },
    futures := fun _ => { value := none, callbacks := [] },
    nextFut := 0,
    events := [] }

/-- A thread on which the user scope "work" (address 0) is open and the
management span of the exit operator (address 1) is the current span. -/
def worldInExitOp : World :=
  { heap := fun i =>
      if i = 0 then
        { scope := RecordScope.USER_SCOPE, name := "work", parent := none, active := true }
      else if i = 1 then
        { scope := RecordScope.FUNCTION, name := "profiler::_record_function_exit",
          parent := some 0, active := true }
      else RecordFunction.blank,
    nextRec := 2,
    current := some 1,
    tls := { ident := 7 },
    futures := fun _ => { value := none, callbacks := [] },
    nextFut := 0,
    events := [] }

/-- A thread with context 7 on which the user scope "work" (address 0) is
open, and one pending result (address 0) with no continuation yet. -/
def worldWithPending : World :=
  { heap := fun i =>
      if i = 0 then
        { scope := RecordScope.USER_SCOPE, name := "work", parent := none, active := true }
      else RecordFunction.blank,
    nextRec := 1,
    current := some 0,
    tls := { ident := 7 },
    futures := fun _ => { value := none, callbacks := [] },
    nextFut := 1,
    events := [] }

/-- The world in which `worldWithPending` has been bound to the scope at
address 0, seen from a second thread with context 9 and no current span. -/
def worldAfterBind : World :=
  (_call_end_callbacks_on_fut (Tensor.recordFunction 0) 0 worldWithPending).2.onThread
    none { ident := 9 }

/-- The continuation body that binding in `worldWithPending` builds. -/
def boundBody : FutureProfilingFunc :=
  { fut := 0, handle := Tensor.recordFunction 0, tls_state := { ident := 7 } }

/-- The world in which the pending result of `worldAfterBind` has its value 42
but no continuation has run yet. -/
def worldResolved : World :=
  worldAfterBind.setFut 0 { value := some (IValue.Int 42), callbacks := [] }

/-! ## Basic facts about the collaborators -/

theorem RecordFunction.deactivate_eq (r : RecordFunction) (h : r.active = false) :
    { r with active := false } = r := by
  cases r
  simp_all

@[simp] theorem end_nextRec (a : Nat) (w : World) :
    (RecordFunction.end_ a w).nextRec = w.nextRec := by
  unfold RecordFunction.end_
  split <;> rfl

@[simp] theorem end_tls (a : Nat) (w : World) : (RecordFunction.end_ a w).tls = w.tls := by
  unfold RecordFunction.end_
  split <;> rfl

@[simp] theorem end_futures (a : Nat) (w : World) :
    (RecordFunction.end_ a w).futures = w.futures := by
  unfold RecordFunction.end_
  split <;> rfl

@[simp] theorem end_nextFut (a : Nat) (w : World) :
    (RecordFunction.end_ a w).nextFut = w.nextFut := by
  unfold RecordFunction.end_
  split <;> rfl

theorem end_heap (a : Nat) (w : World) (i : Nat) :
    (RecordFunction.end_ a w).heap i =
      if i = a then { w.heap a with active := false } else w.heap i := by
  unfold RecordFunction.end_
  by_cases hact : (w.heap a).active = true
  · simp [hact, World.setRec, World.log]
  · have hf : (w.heap a).active = false := by simpa using hact
    by_cases hi : i = a
    · subst hi
      simp [hf, World.log, RecordFunction.deactivate_eq]
    · simp [hf, hi, World.log]

theorem end_events (a : Nat) (w : World) :
    (RecordFunction.end_ a w).events =
      w.events ++ Event.endCalled a w.tls ::
        (if (w.heap a).active = true then [Event.endCallbacks a w.tls] else []) := by
  unfold RecordFunction.end_
  by_cases hact : (w.heap a).active = true <;> simp [hact, World.setRec, World.log]

theorem end_current (a : Nat) (w : World) :
    (RecordFunction.end_ a w).current =
      if (w.heap a).active = true ∧ w.current = some a then (w.heap a).parent
      else w.current := by
  unfold RecordFunction.end_
  by_cases hact : (w.heap a).active = true <;> simp [hact, World.setRec, World.log]

theorem end_parent (a : Nat) (w : World) (i : Nat) :
    ((RecordFunction.end_ a w).heap i).parent = (w.heap i).parent := by
  rw [end_heap]
  split
  · next h => subst h; rfl
  · rfl

theorem end_active (a : Nat) (w : World) (i : Nat) :
    ((RecordFunction.end_ a w).heap i).active = (if i = a then false else (w.heap i).active) := by
  rw [end_heap]
  split <;> rfl

@[simp] theorem ctor_nextRec (s : RecordScope) (w : World) :
    (RecordFunction.ctor s w).2.nextRec = w.nextRec + 1 := rfl

@[simp] theorem ctor_current (s : RecordScope) (w : World) :
    (RecordFunction.ctor s w).2.current = w.current := rfl

@[simp] theorem ctor_tls (s : RecordScope) (w : World) :
    (RecordFunction.ctor s w).2.tls = w.tls := rfl

@[simp] theorem ctor_events (s : RecordScope) (w : World) :
    (RecordFunction.ctor s w).2.events = w.events := rfl

@[simp] theorem ctor_futures (s : RecordScope) (w : World) :
    (RecordFunction.ctor s w).2.futures = w.futures := rfl

@[simp] theorem ctor_nextFut (s : RecordScope) (w : World) :
    (RecordFunction.ctor s w).2.nextFut = w.nextFut := rfl

theorem ctor_heap (s : RecordScope) (w : World) (i : Nat) :
    (RecordFunction.ctor s w).2.heap i =
      if i = w.nextRec then { scope := s, name := "", parent := none, active := false }
      else w.heap i := rfl

theorem ctor_heap_old (s : RecordScope) (w : World) (i : Nat) (h : i < w.nextRec) :
    (RecordFunction.ctor s w).2.heap i = w.heap i := by
  rw [ctor_heap, if_neg (Nat.ne_of_lt h)]

@[simp] theorem before_nextRec (a : Nat) (n : String) (w : World) :
    (RecordFunction.before a n w).nextRec = w.nextRec := rfl

@[simp] theorem before_current (a : Nat) (n : String) (w : World) :
    (RecordFunction.before a n w).current = some a := rfl

@[simp] theorem before_tls (a : Nat) (n : String) (w : World) :
    (RecordFunction.before a n w).tls = w.tls := rfl

@[simp] theorem before_futures (a : Nat) (n : String) (w : World) :
    (RecordFunction.before a n w).futures = w.futures := rfl

@[simp] theorem before_nextFut (a : Nat) (n : String) (w : World) :
    (RecordFunction.before a n w).nextFut = w.nextFut := rfl

theorem before_events (a : Nat) (n : String) (w : World) :
    (RecordFunction.before a n w).events = w.events ++ [Event.startCallbacks a w.tls] := rfl

theorem before_heap (a : Nat) (n : String) (w : World) (i : Nat) :
    (RecordFunction.before a n w).heap i =
      if i = a then { w.heap a with name := n, parent := w.current, active := true }
      else w.heap i := rfl

/-- The repair step of `record_function_enter` either leaves the world alone
or ends the current span, whose name is the reserved one. -/
theorem enter_repair_cases (w : World) :
    (record_function_enter.repair w = w ∧
      ∀ c, w.current = some c → (w.heap c).name ≠ "profiler::_record_function_enter") ∨
    ∃ c, w.current = some c ∧ (w.heap c).name = "profiler::_record_function_enter" ∧
      record_function_enter.repair w = RecordFunction.end_ c w := by
  unfold record_function_enter.repair RecordFunction.current
  cases hc : w.current with
  | none => left; simp
  | some c =>
    by_cases hn : (w.heap c).name = "profiler::_record_function_enter"
    · right; exact ⟨c, rfl, hn, by simp [hn]⟩
    · left; simp [hn]

/-- The repair step of `record_function_exit`, likewise. -/
theorem exit_repair_cases (w : World) :
    (record_function_exit.repair w = w ∧
      ∀ c, w.current = some c → (w.heap c).name ≠ "profiler::_record_function_exit") ∨
    ∃ c, w.current = some c ∧ (w.heap c).name = "profiler::_record_function_exit" ∧
      record_function_exit.repair w = RecordFunction.end_ c w := by
  unfold record_function_exit.repair RecordFunction.current
  cases hc : w.current with
  | none => left; simp
  | some c =>
    by_cases hn : (w.heap c).name = "profiler::_record_function_exit"
    · right; exact ⟨c, rfl, hn, by simp [hn]⟩
    · left; simp [hn]

theorem enter_repair_of_name (w : World) (c : Nat) (hc : w.current = some c)
    (hn : (w.heap c).name = "profiler::_record_function_enter") :
    record_function_enter.repair w = RecordFunction.end_ c w := by
  simp [record_function_enter.repair, RecordFunction.current, hc, hn]

theorem exit_repair_of_name (w : World) (c : Nat) (hc : w.current = some c)
    (hn : (w.heap c).name = "profiler::_record_function_exit") :
    record_function_exit.repair w = RecordFunction.end_ c w := by
  simp [record_function_exit.repair, RecordFunction.current, hc, hn]

theorem enter_snd (n : String) (w : World) :
    (record_function_enter n w).2 =
      RecordFunction.before w.nextRec n
        (record_function_enter.repair (RecordFunction.ctor RecordScope.USER_SCOPE w).2) := rfl

theorem exit_of_handle (a : Nat) (w : World) :
    record_function_exit (Tensor.recordFunction a) w =
      (Except.ok (), RecordFunction.end_ a (record_function_exit.repair w)) := rfl

theorem enter_repair_nextRec (w : World) :
    (record_function_enter.repair w).nextRec = w.nextRec := by
  rcases enter_repair_cases w with ⟨h, _⟩ | ⟨c, _, _, h⟩ <;> simp [h]

theorem enter_repair_tls (w : World) : (record_function_enter.repair w).tls = w.tls := by
  rcases enter_repair_cases w with ⟨h, _⟩ | ⟨c, _, _, h⟩ <;> simp [h]

theorem exit_repair_nextRec (w : World) :
    (record_function_exit.repair w).nextRec = w.nextRec := by
  rcases exit_repair_cases w with ⟨h, _⟩ | ⟨c, _, _, h⟩ <;> simp [h]

theorem exit_repair_tls (w : World) : (record_function_exit.repair w).tls = w.tls := by
  rcases exit_repair_cases w with ⟨h, _⟩ | ⟨c, _, _, h⟩ <;> simp [h]

theorem enter_nextRec (n : String) (w : World) :
    (record_function_enter n w).2.nextRec = w.nextRec + 1 := by
  rw [enter_snd, before_nextRec, enter_repair_nextRec, ctor_nextRec]

theorem enter_tls (n : String) (w : World) : (record_function_enter n w).2.tls = w.tls := by
  rw [enter_snd, before_tls, enter_repair_tls, ctor_tls]

theorem enter_current (n : String) (w : World) :
    (record_function_enter n w).2.current = some w.nextRec := rfl

theorem enter_heap_new (n : String) (w : World) :
    (record_function_enter n w).2.heap w.nextRec =
      { (record_function_enter.repair (RecordFunction.ctor RecordScope.USER_SCOPE w).2).heap
          w.nextRec with
        name := n
        parent := (record_function_enter.repair
          (RecordFunction.ctor RecordScope.USER_SCOPE w).2).current
        active := true } := by
  rw [enter_snd, before_heap, if_pos rfl]

/-- What `record_function_enter` does when the current span carries the
reserved name of the enter operation and is active. -/
theorem enter_on_reserved_current (w : World) (m : Nat) (n : String)
    (hcur : w.current = some m) (halloc : m < w.nextRec)
    (hname : (w.heap m).name = "profiler::_record_function_enter")
    (hact : (w.heap m).active = true) :
    (record_function_enter n w).1 = Tensor.recordFunction w.nextRec ∧
    (record_function_enter n w).2.heap w.nextRec =
      { scope := RecordScope.USER_SCOPE, name := n, parent := (w.heap m).parent, active := true } ∧
    (record_function_enter n w).2.current = some w.nextRec ∧
    ((record_function_enter n w).2.heap m).active = false ∧
    (record_function_enter n w).2.events =
      w.events ++ [Event.endCalled m w.tls, Event.endCallbacks m w.tls,
        Event.startCallbacks w.nextRec w.tls] := by
  have hne : m ≠ w.nextRec := Nat.ne_of_lt halloc
  have hm : (RecordFunction.ctor RecordScope.USER_SCOPE w).2.heap m = w.heap m :=
    ctor_heap_old _ w m halloc
  have hrep : record_function_enter.repair (RecordFunction.ctor RecordScope.USER_SCOPE w).2 =
      RecordFunction.end_ m (RecordFunction.ctor RecordScope.USER_SCOPE w).2 :=
    enter_repair_of_name _ m hcur (by rw [hm]; exact hname)
  rw [enter_snd, hrep]
  refine ⟨rfl, ?_, rfl, ?_, ?_⟩
  · simp [before_heap, end_heap, end_current, hm, hact, hcur, hne.symm, ctor_heap]
  · simp [before_heap, end_heap, hne]
  · simp [before_events, end_events, hm, hact]

/-- What `record_function_enter` leaves at the new address when the current
span does not carry the reserved name. -/
theorem enter_heap_new_fields (n : String) (w : World) :
    ((record_function_enter n w).2.heap w.nextRec).name = n ∧
    ((record_function_enter n w).2.heap w.nextRec).active = true := by
  rw [enter_heap_new]
  exact ⟨rfl, rfl⟩

theorem fired_append (a : Nat) (es es' : List Event) :
    endCallbacksFired a (es ++ es') = endCallbacksFired a es + endCallbacksFired a es' := by
  simp [endCallbacksFired, List.countP_append]

theorem end_closureCount (a total x : Nat) (w : World) (h : ClosureCount a total w) :
    ClosureCount a total (RecordFunction.end_ x w) := by
  obtain ⟨hlt, hc⟩ := h
  refine ⟨by simpa using hlt, ?_⟩
  rw [end_events, end_active, fired_append]
  by_cases hx : a = x
  · subst hx
    by_cases hact : (w.heap a).active = true
    · simp [hact, endCallbacksFired, Event.isEndCallbacksOf] at hc ⊢
      omega
    · simp [hact, endCallbacksFired, Event.isEndCallbacksOf] at hc ⊢
      omega
  · have hx' : ¬ x = a := fun h => hx h.symm
    by_cases hact : (w.heap x).active = true
    · simp [hx, hx', hact, endCallbacksFired, Event.isEndCallbacksOf] at hc ⊢
      omega
    · simp [hx, hx', hact, endCallbacksFired, Event.isEndCallbacksOf] at hc ⊢
      omega

theorem end_closed (a x : Nat) (w : World) (h : (w.heap a).active = false) :
    ((RecordFunction.end_ x w).heap a).active = false := by
  rw [end_active]
  split <;> simp [h]

theorem ctor_closureCount (a total : Nat) (s : RecordScope) (w : World)
    (h : ClosureCount a total w) : ClosureCount a total (RecordFunction.ctor s w).2 := by
  obtain ⟨hlt, hc⟩ := h
  refine ⟨by simp; omega, ?_⟩
  rw [ctor_events, ctor_heap_old s w a hlt]
  exact hc

theorem before_closureCount (a total x : Nat) (n : String) (w : World) (hx : a ≠ x)
    (h : ClosureCount a total w) : ClosureCount a total (RecordFunction.before x n w) := by
  obtain ⟨hlt, hc⟩ := h
  refine ⟨by simpa using hlt, ?_⟩
  rw [before_events, before_heap, if_neg hx, fired_append]
  simpa [endCallbacksFired, Event.isEndCallbacksOf] using hc

theorem enter_repair_closureCount (a total : Nat) (w : World) (h : ClosureCount a total w) :
    ClosureCount a total (record_function_enter.repair w) := by
  rcases enter_repair_cases w with ⟨he, _⟩ | ⟨c, _, _, he⟩
  · rw [he]; exact h
  · rw [he]; exact end_closureCount a total c w h

theorem exit_repair_closureCount (a total : Nat) (w : World) (h : ClosureCount a total w) :
    ClosureCount a total (record_function_exit.repair w) := by
  rcases exit_repair_cases w with ⟨he, _⟩ | ⟨c, _, _, he⟩
  · rw [he]; exact h
  · rw [he]; exact end_closureCount a total c w h

theorem enter_repair_closed (a : Nat) (w : World) (h : (w.heap a).active = false) :
    ((record_function_enter.repair w).heap a).active = false := by
  rcases enter_repair_cases w with ⟨he, _⟩ | ⟨c, _, _, he⟩
  · rw [he]; exact h
  · rw [he]; exact end_closed a c w h

theorem exit_repair_closed (a : Nat) (w : World) (h : (w.heap a).active = false) :
    ((record_function_exit.repair w).heap a).active = false := by
  rcases exit_repair_cases w with ⟨he, _⟩ | ⟨c, _, _, he⟩
  · rw [he]; exact h
  · rw [he]; exact end_closed a c w h

theorem call_closureCount (a total : Nat) (c : Call) (w : World) (h : ClosureCount a total w) :
    ClosureCount a total (c.run w) := by
  cases c with
  | enter n =>
    show ClosureCount a total (record_function_enter n w).2
    rw [enter_snd]
    exact before_closureCount a total _ n _ (Nat.ne_of_lt h.1)
      (enter_repair_closureCount a total _ (ctor_closureCount a total _ w h))
  | exit handle =>
    show ClosureCount a total (record_function_exit handle w).2
    cases handle with
    | recordFunction x =>
      rw [exit_of_handle]
      exact end_closureCount a total x _ (exit_repair_closureCount a total w h)
    | undefinedTensor => exact h
    | foreign p => exact h

theorem call_closed (a : Nat) (c : Call) (w : World) (hlt : a < w.nextRec)
    (h : (w.heap a).active = false) : ((c.run w).heap a).active = false := by
  cases c with
  | enter n =>
    show ((record_function_enter n w).2.heap a).active = false
    rw [enter_snd, before_heap, if_neg (Nat.ne_of_lt hlt)]
    apply enter_repair_closed
    rw [ctor_heap_old _ w a hlt]
    exact h
  | exit handle =>
    show ((record_function_exit handle w).2.heap a).active = false
    cases handle with
    | recordFunction x =>
      rw [exit_of_handle]
      exact end_closed a x _ (exit_repair_closed a w h)
    | undefinedTensor => exact h
    | foreign p => exact h

theorem exit_closes (a : Nat) (w : World) :
    (((Call.exit (Tensor.recordFunction a)).run w).heap a).active = false := by
  show ((record_function_exit (Tensor.recordFunction a) w).2.heap a).active = false
  rw [exit_of_handle]
  simp [end_active]

theorem runCalls_closureCount (a total : Nat) (cs : List Call) :
    ∀ w : World, ClosureCount a total w →
      ((w.heap a).active = false ∨ Call.exit (Tensor.recordFunction a) ∈ cs) →
      ClosureCount a total (runCalls cs w) ∧ ((runCalls cs w).heap a).active = false := by
  induction cs with
  | nil =>
    intro w h hc
    rcases hc with hc | hc
    · exact ⟨h, hc⟩
    · exact absurd hc (List.not_mem_nil _)
  | cons c cs ih =>
    intro w h hc
    have hstep : ClosureCount a total (c.run w) := call_closureCount a total c w h
    show ClosureCount a total (runCalls cs (c.run w)) ∧ _
    apply ih (c.run w) hstep
    rcases hc with hc | hc
    · exact Or.inl (call_closed a c w h.1 hc)
    · rcases List.mem_cons.mp hc with hc | hc
      · left
        rw [← hc]
        exact exit_closes a w
      · exact Or.inr hc

theorem enter_closureCount (n : String) (w : World) :
    ClosureCount w.nextRec (endCallbacksFired w.nextRec w.events + 1)
      (record_function_enter n w).2 := by
  refine ⟨by rw [enter_nextRec]; exact Nat.lt_succ_self _, ?_⟩
  rw [(enter_heap_new_fields n w).2, enter_snd, before_events, fired_append]
  have hrep : endCallbacksFired w.nextRec
      (record_function_enter.repair (RecordFunction.ctor RecordScope.USER_SCOPE w).2).events =
      endCallbacksFired w.nextRec w.events := by
    rcases enter_repair_cases (RecordFunction.ctor RecordScope.USER_SCOPE w).2 with
      ⟨he, _⟩ | ⟨c, _, hn, he⟩
    · rw [he]; rfl
    · have hc : c ≠ w.nextRec := by
        intro hc
        rw [hc, ctor_heap, if_pos rfl] at hn
        simp at hn
      rw [he, end_events, fired_append]
      by_cases hact : ((RecordFunction.ctor RecordScope.USER_SCOPE w).2.heap c).active = true
      · simp [hact, endCallbacksFired, Event.isEndCallbacksOf, hc]
      · simp [hact, endCallbacksFired, Event.isEndCallbacksOf]
  rw [hrep]
  simp [endCallbacksFired, Event.isEndCallbacksOf]

theorem enter_repair_parent (w : World) (i : Nat) :
    ((record_function_enter.repair w).heap i).parent = (w.heap i).parent := by
  rcases enter_repair_cases w with ⟨he, _⟩ | ⟨c, _, _, he⟩
  · rw [he]
  · rw [he, end_parent]

theorem exit_repair_parent (w : World) (i : Nat) :
    ((record_function_exit.repair w).heap i).parent = (w.heap i).parent := by
  rcases exit_repair_cases w with ⟨he, _⟩ | ⟨c, _, _, he⟩
  · rw [he]
  · rw [he, end_parent]

theorem enter_parent_old (n : String) (w : World) (i : Nat) (hi : i < w.nextRec) :
    ((record_function_enter n w).2.heap i).parent = (w.heap i).parent := by
  rw [enter_snd, before_heap, if_neg (Nat.ne_of_lt hi), enter_repair_parent,
    ctor_heap_old _ w i hi]

theorem exit_parent (handle : Tensor) (w : World) (i : Nat) :
    ((record_function_exit handle w).2.heap i).parent = (w.heap i).parent := by
  cases handle with
  | recordFunction x => rw [exit_of_handle, end_parent, exit_repair_parent]
  | undefinedTensor => rfl
  | foreign p => rfl

theorem exit_nextRec (handle : Tensor) (w : World) :
    (record_function_exit handle w).2.nextRec = w.nextRec := by
  cases handle with
  | recordFunction x => rw [exit_of_handle, end_nextRec, exit_repair_nextRec]
  | undefinedTensor => rfl
  | foreign p => rfl

/-- Later steps never change the parent of a span that is already allocated. -/
theorem runScoped_parent_old (cs : List ScopeCall) :
    ∀ (stack : List Tensor) (w : World) (i : Nat), i < w.nextRec →
      ((runScoped cs stack w).2.heap i).parent = (w.heap i).parent := by
  induction cs with
  | nil => intro stack w i _; rfl
  | cons c cs ih =>
    intro stack w i hi
    cases c with
    | open_scope n =>
      show ((runScoped cs _ (record_function_enter n w).2).2.heap i).parent = _
      rw [ih _ _ i (by rw [enter_nextRec]; exact Nat.lt_succ_of_lt hi), enter_parent_old n w i hi]
    | close_scope =>
      cases stack with
      | nil => exact ih [] w i hi
      | cons handle stack =>
        show ((runScoped cs stack (record_function_exit handle w).2).2.heap i).parent = _
        rw [ih _ _ i (by rw [exit_nextRec]; exact hi), exit_parent]

theorem end_name (a : Nat) (w : World) (i : Nat) :
    ((RecordFunction.end_ a w).heap i).name = (w.heap i).name := by
  rw [end_heap]
  split
  · next h => subst h; rfl
  · rfl

theorem exit_name (handle : Tensor) (w : World) (i : Nat) :
    ((record_function_exit handle w).2.heap i).name = (w.heap i).name := by
  cases handle with
  | recordFunction x =>
    rw [exit_of_handle, end_name]
    rcases exit_repair_cases w with ⟨he, _⟩ | ⟨c, _, _, he⟩
    · rw [he]
    · rw [he, end_name]
  | undefinedTensor => rfl
  | foreign p => rfl

/-- Without a current span of the reserved name there is no repair:
`record_function_enter` is the constructor followed by `before`. -/
theorem enter_no_repair (n : String) (w : World)
    (h : ∀ m, w.current = some m →
      m < w.nextRec ∧ (w.heap m).name ≠ "profiler::_record_function_enter") :
    (record_function_enter n w).2 =
      RecordFunction.before w.nextRec n (RecordFunction.ctor RecordScope.USER_SCOPE w).2 := by
  rw [enter_snd]
  rcases enter_repair_cases (RecordFunction.ctor RecordScope.USER_SCOPE w).2 with
    ⟨he, _⟩ | ⟨c, hc, hn, _⟩
  · rw [he]
  · have hc' : w.current = some c := hc
    rw [ctor_heap_old _ w c (h c hc').1] at hn
    exact absurd hn (h c hc').2

theorem enter_no_repair_heap_old (n : String) (w : World)
    (h : ∀ m, w.current = some m →
      m < w.nextRec ∧ (w.heap m).name ≠ "profiler::_record_function_enter")
    (i : Nat) (hi : i < w.nextRec) :
    (record_function_enter n w).2.heap i = w.heap i := by
  rw [enter_no_repair n w h, before_heap, if_neg (Nat.ne_of_lt hi), ctor_heap_old _ w i hi]

theorem enter_no_repair_heap_new (n : String) (w : World)
    (h : ∀ m, w.current = some m →
      m < w.nextRec ∧ (w.heap m).name ≠ "profiler::_record_function_enter") :
    (record_function_enter n w).2.heap w.nextRec =
      { scope := RecordScope.USER_SCOPE, name := n, parent := w.current, active := true } := by
  rw [enter_no_repair n w h, before_heap, if_pos rfl]
  simp [ctor_heap]

/-- Closing the thread's current, still open span: its parent becomes current
and no other span changes. -/
theorem exit_top (a : Nat) (w : World) (hcur : w.current = some a)
    (hact : (w.heap a).active = true) :
    (record_function_exit (Tensor.recordFunction a) w).2.current = (w.heap a).parent ∧
    ∀ i, i ≠ a → (record_function_exit (Tensor.recordFunction a) w).2.heap i = w.heap i := by
  rw [exit_of_handle]
  rcases exit_repair_cases w with ⟨he, _⟩ | ⟨c, hc, _, he⟩
  · rw [he]
    refine ⟨by simp [end_current, hact, hcur], fun i hi => by simp [end_heap, hi]⟩
  · have hca : c = a := by
      rw [hcur] at hc
      exact (Option.some.inj hc).symm
    subst hca
    rw [he]
    refine ⟨by simp [end_current, end_heap, hact, hcur], fun i hi => by simp [end_heap, hi]⟩

theorem openChain_lt (base : Option Nat) (stack : List Nat) (w : World)
    (h : OpenChain base stack w) : ∀ a ∈ stack, a < w.nextRec := by
  induction stack with
  | nil => intro a ha; exact absurd ha (List.not_mem_nil _)
  | cons b rest ih =>
    intro a ha
    obtain ⟨_, _, _, hb, _, hrest⟩ := h
    rcases List.mem_cons.mp ha with rfl | ha
    · exact hb
    · exact ih hrest a ha

theorem openChain_congr (base : Option Nat) (stack : List Nat) (w w2 : World)
    (hheap : ∀ a ∈ stack, w2.heap a = w.heap a) (hnext : w.nextRec ≤ w2.nextRec)
    (h : OpenChain base stack w) : OpenChain base stack w2 := by
  induction stack with
  | nil => trivial
  | cons b rest ih =>
    obtain ⟨h1, h2, h3, h4, h5, h6⟩ := h
    have hb := hheap b (List.mem_cons_self _ _)
    refine ⟨by rw [hb]; exact h1, by rw [hb]; exact h2, by rw [hb]; exact h3,
      Nat.lt_of_lt_of_le h4 hnext, h5, ih (fun a ha => hheap a (List.mem_cons_of_mem _ ha)) h6⟩

/-- Stack discipline proper: a LIFO sequence of scopes none of which is named
like the enter operator nests every new scope under the innermost scope still
open. -/
theorem runScoped_nesting (cs : List ScopeCall) :
    ∀ (stack : List Nat) (w : World) (base : Option Nat),
      (∀ n, ScopeCall.open_scope n ∈ cs → n ≠ "profiler::_record_function_enter") →
      OpenChain base stack w → w.current = topOf base stack →
      (∀ m, base = some m →
        m < w.nextRec ∧ (w.heap m).name ≠ "profiler::_record_function_enter") →
      (runScoped cs (stack.map Tensor.recordFunction) w).1.map
          (fun e => (e.1,
            parentOfHandle (runScoped cs (stack.map Tensor.recordFunction) w).2 e.1)) =
        expectedNesting cs stack w.nextRec base := by
  induction cs with
  | nil => intro stack w base _ _ _ _; rfl
  | cons c cs ih =>
    intro stack w base hnames hchain hcur hbase
    have hnames' : ∀ n, ScopeCall.open_scope n ∈ cs →
        n ≠ "profiler::_record_function_enter" :=
      fun n hn => hnames n (List.mem_cons_of_mem _ hn)
    cases c with
    | open_scope n =>
      have hn : n ≠ "profiler::_record_function_enter" := hnames n (List.mem_cons_self _ _)
      have hcurOk : ∀ m, w.current = some m →
          m < w.nextRec ∧ (w.heap m).name ≠ "profiler::_record_function_enter" := by
        intro m hm
        rw [hcur] at hm
        cases stack with
        | nil => exact hbase m hm
        | cons a rest =>
          have ha : a = m := Option.some.inj hm
          subst ha
          exact ⟨hchain.2.2.2.1, hchain.2.1⟩
      have hnew := enter_no_repair_heap_new n w hcurOk
      have hold := enter_no_repair_heap_old n w hcurOk
      have hnext := enter_nextRec n w
      have hlt := openChain_lt base stack w hchain
      have hchain' : OpenChain base (w.nextRec :: stack) (record_function_enter n w).2 := by
        refine ⟨by rw [hnew], by rw [hnew]; exact hn, by rw [hnew]; exact hcur,
          by rw [hnext]; exact Nat.lt_succ_self _,
          fun hmem => Nat.lt_irrefl _ (hlt _ hmem), ?_⟩
        exact openChain_congr base stack w _ (fun a ha => hold a (hlt a ha))
          (by rw [hnext]; exact Nat.le_succ _) hchain
      have hbase' : ∀ m, base = some m → m < (record_function_enter n w).2.nextRec ∧
          ((record_function_enter n w).2.heap m).name ≠ "profiler::_record_function_enter" := by
        intro m hm
        obtain ⟨h1, h2⟩ := hbase m hm
        exact ⟨by rw [hnext]; exact Nat.lt_succ_of_lt h1, by rw [hold m h1]; exact h2⟩
      have hih := ih (w.nextRec :: stack) (record_function_enter n w).2 base hnames' hchain'
        (enter_current n w) hbase'
      rw [hnext] at hih
      show (Tensor.recordFunction w.nextRec,
          ((runScoped cs (Tensor.recordFunction w.nextRec :: stack.map Tensor.recordFunction)
            (record_function_enter n w).2).2.heap w.nextRec).parent) ::
          (runScoped cs (Tensor.recordFunction w.nextRec :: stack.map Tensor.recordFunction)
            (record_function_enter n w).2).1.map _ = _
      rw [runScoped_parent_old cs _ _ w.nextRec (by rw [hnext]; exact Nat.lt_succ_self _), hnew]
      show _ = (Tensor.recordFunction w.nextRec, topOf base stack) ::
        expectedNesting cs (w.nextRec :: stack) (w.nextRec + 1) base
      rw [← hih, hcur]
      rfl
    | close_scope =>
      cases stack with
      | nil => exact ih [] w base hnames' hchain hcur hbase
      | cons a rest =>
        obtain ⟨hact, _, hpar, _, hnot, hrest⟩ := hchain
        have hcur' : w.current = some a := hcur
        obtain ⟨hc2, hheap⟩ := exit_top a w hcur' hact
        have hnext := exit_nextRec (Tensor.recordFunction a) w
        have hchain' : OpenChain base rest (record_function_exit (Tensor.recordFunction a) w).2 :=
          openChain_congr base rest w _
            (fun b hb => hheap b (fun hba => hnot (hba ▸ hb))) (by rw [hnext]) hrest
        have hbase' : ∀ m, base = some m →
            m < (record_function_exit (Tensor.recordFunction a) w).2.nextRec ∧
            ((record_function_exit (Tensor.recordFunction a) w).2.heap m).name ≠
              "profiler::_record_function_enter" := by
          intro m hm
          obtain ⟨h1, h2⟩ := hbase m hm
          exact ⟨by rw [hnext]; exact h1, by rw [exit_name]; exact h2⟩
        have hih := ih rest (record_function_exit (Tensor.recordFunction a) w).2 base hnames'
          hchain' (by rw [hc2, hpar]) hbase'
        rw [hnext] at hih
        exact hih

/-- The parent a created span keeps to the end of the sequence is the span
that was current when `before` registered it. -/
theorem runScoped_parent_is_active (cs : List ScopeCall) :
    ∀ (stack : List Tensor) (w : World),
      ∀ e ∈ (runScoped cs stack w).1, ∃ a, e.1 = Tensor.recordFunction a ∧
        ((runScoped cs stack w).2.heap a).parent =
          record_function_enter.activeBeforeCreation e.2 := by
  induction cs with
  | nil => intro stack w e he; exact absurd he (List.not_mem_nil _)
  | cons c cs ih =>
    intro stack w e he
    cases c with
    | open_scope n =>
      have he' : e ∈ ((record_function_enter n w).1, w) ::
          (runScoped cs ((record_function_enter n w).1 :: stack)
            (record_function_enter n w).2).1 := he
      show ∃ a, e.1 = Tensor.recordFunction a ∧
        ((runScoped cs ((record_function_enter n w).1 :: stack)
          (record_function_enter n w).2).2.heap a).parent =
            record_function_enter.activeBeforeCreation e.2
      rcases List.mem_cons.mp he' with heq | hrest
      · refine ⟨w.nextRec, by rw [heq]; rfl, ?_⟩
        rw [runScoped_parent_old cs _ _ w.nextRec
          (by rw [enter_nextRec]; exact Nat.lt_succ_self _), heq, enter_heap_new]
        rfl
      · exact ih _ _ e hrest
    | close_scope =>
      cases stack with
      | nil => exact ih [] w e he
      | cons handle stack => exact ih stack _ e he

/-! ## The continuation body -/

theorem body_of_handle (c : FutureProfilingFunc) (s : Nat) (v : IValue) (w : World)
    (hh : c.handle = Tensor.recordFunction s) (hv : (w.futures c.fut).value = some v) :
    futureProfilingFunc c w =
      (Except.ok v,
       ThreadLocalState.setThreadLocalState w.tls
         ((RecordFunction.end_ s (ThreadLocalState.setThreadLocalState c.tls_state w)).log
           (Event.constValue c.fut v))) := by
  have hv' : ((ThreadLocalState.setThreadLocalState c.tls_state w).futures c.fut).value =
      some v := hv
  simp [futureProfilingFunc, hh, Tensor.defined, getRecordFunctionFromTensor,
    cpp_custom_type_hack.cast, Future.constValue, hv', ThreadLocalState.ctor]

theorem body_tls (c : FutureProfilingFunc) (w : World) :
    (futureProfilingFunc c w).2.tls = w.tls := by
  unfold futureProfilingFunc
  split
  · simp only [getRecordFunctionFromTensor]
    cases hc : cpp_custom_type_hack.cast c.handle with
    | error e => rfl
    | ok a =>
      simp only [Future.constValue]
      split <;> rfl
  · rfl

theorem body_events (c : FutureProfilingFunc) (s : Nat) (v : IValue) (w : World)
    (hh : c.handle = Tensor.recordFunction s) (hv : (w.futures c.fut).value = some v) :
    (futureProfilingFunc c w).2.events =
      w.events ++ Event.endCalled s c.tls_state ::
        (if (w.heap s).active = true then [Event.endCallbacks s c.tls_state] else []) ++
        [Event.constValue c.fut v] := by
  rw [body_of_handle c s v w hh hv]
  simp [ThreadLocalState.setThreadLocalState, World.log, end_events]

theorem body_heap (c : FutureProfilingFunc) (s : Nat) (v : IValue) (w : World)
    (hh : c.handle = Tensor.recordFunction s) (hv : (w.futures c.fut).value = some v)
    (i : Nat) :
    (futureProfilingFunc c w).2.heap i =
      if i = s then { w.heap s with active := false } else w.heap i := by
  rw [body_of_handle c s v w hh hv]
  simp [ThreadLocalState.setThreadLocalState, World.log, end_heap]

theorem body_futures (c : FutureProfilingFunc) (s : Nat) (v : IValue) (w : World)
    (hh : c.handle = Tensor.recordFunction s) (hv : (w.futures c.fut).value = some v) :
    (futureProfilingFunc c w).2.futures = w.futures := by
  rw [body_of_handle c s v w hh hv]
  simp [ThreadLocalState.setThreadLocalState, World.log]

/-- The assertion of the continuation body fails exactly for an undefined
captured handle. -/
theorem body_assert_iff_undefined (c2 : FutureProfilingFunc) (w2 : World) :
    (futureProfilingFunc c2 w2).1 =
        Except.error (Fatal.internalAssert futureProfilingFunc.assertMessage) ↔
      c2.handle = Tensor.undefinedTensor := by
  constructor
  · intro h
    cases hh : c2.handle with
    | undefinedTensor => rfl
    | recordFunction a =>
      exfalso
      simp only [futureProfilingFunc, hh, Tensor.defined, getRecordFunctionFromTensor,
        cpp_custom_type_hack.cast, Future.constValue, if_true] at h
      split at h
      · cases h
      · simp only [Except.error.injEq, Fatal.internalAssert.injEq] at h
        revert h
        decide
    | foreign p =>
      exfalso
      simp [futureProfilingFunc, hh, Tensor.defined, getRecordFunctionFromTensor,
        cpp_custom_type_hack.cast] at h
  · intro h
    simp [futureProfilingFunc, h, Tensor.defined]

/-! ## Binding and resolution -/

theorem bind_pending (handle : Tensor) (p : Nat) (w : World)
    (hp : p < w.nextFut) (hpend : (w.futures p).value = none) :
    (_call_end_callbacks_on_fut handle p w).1 = Except.ok w.nextFut ∧
    (_call_end_callbacks_on_fut handle p w).2.futures p =
      { value := none,
        callbacks := (w.futures p).callbacks ++
          [{ cb := { fut := p, handle := handle, tls_state := w.tls }, target := w.nextFut }] } ∧
    (_call_end_callbacks_on_fut handle p w).2.futures w.nextFut =
      { value := none, callbacks := [] } ∧
    (_call_end_callbacks_on_fut handle p w).2.heap = w.heap ∧
    (_call_end_callbacks_on_fut handle p w).2.events = w.events ∧
    (_call_end_callbacks_on_fut handle p w).2.current = w.current ∧
    (_call_end_callbacks_on_fut handle p w).2.tls = w.tls := by
  have hne : p ≠ w.nextFut := Nat.ne_of_lt hp
  simp [_call_end_callbacks_on_fut, Future.then_, World.setFut, hne, hne.symm, hpend,
    ThreadLocalState.ctor]

/-- Resolution of a pending result `p` whose only continuation is `c`, with
the still pending target `q`. -/
theorem markCompleted_single (fuel p q s : Nat) (c : FutureProfilingFunc) (v : IValue)
    (w : World) (hpq : p ≠ q)
    (hp : w.futures p = { value := none, callbacks := [{ cb := c, target := q }] })
    (hq : w.futures q = { value := none, callbacks := [] })
    (hfut : c.fut = p) (hh : c.handle = Tensor.recordFunction s) :
    Future.markCompleted (fuel + 2) p v w =
      some (Except.ok (),
        (((futureProfilingFunc c
            ((w.setFut p { value := some v, callbacks := [] }).log
              (Event.markCompleted p v))).2.setFut q
          { value := some v, callbacks := [] }).log (Event.markCompleted q v))) := by
  have hv : ((((w.setFut p { value := some v, callbacks := [] }).log
      (Event.markCompleted p v))).futures c.fut).value = some v := by
    simp [World.setFut, World.log, hfut]
  have hb := body_of_handle c s v _ hh hv
  have hf := body_futures c s v _ hh hv
  have hq' : ((futureProfilingFunc c
      ((w.setFut p { value := some v, callbacks := [] }).log
        (Event.markCompleted p v))).2.futures q) = { value := none, callbacks := [] } := by
    rw [hf]
    simp [World.setFut, World.log, hpq.symm, hq]
  have hfst : (futureProfilingFunc c
      ((w.setFut p { value := some v, callbacks := [] }).log
        (Event.markCompleted p v))).1 = Except.ok v := by rw [hb]
  rw [Future.markCompleted]
  simp only [hp, List.foldl_cons, List.foldl_nil]
  generalize hr : futureProfilingFunc c
      ((w.setFut p { value := some v, callbacks := [] }).log (Event.markCompleted p v)) = r at *
  obtain ⟨r1, r2⟩ := r
  simp only at hfst hq'
  subst hfst
  simp only [Future.markCompleted, hq', List.foldl_nil]

/-- Resolution, on any later world that still holds the two pending results as
the binding left them, of a pending result bound to a scope. -/
theorem resolve_after_bind (w w' : World) (s p : Nat) (v : IValue) (fuel : Nat)
    (hp : p < w.nextFut) (hpend : w.futures p = { value := none, callbacks := [] })
    (hfp : w'.futures p =
      (_call_end_callbacks_on_fut (Tensor.recordFunction s) p w).2.futures p)
    (hfq : w'.futures w.nextFut =
      (_call_end_callbacks_on_fut (Tensor.recordFunction s) p w).2.futures w.nextFut) :
    Future.markCompleted (fuel + 2) p v w' =
      some (Except.ok (),
        (((futureProfilingFunc
            { fut := p, handle := Tensor.recordFunction s, tls_state := w.tls }
            ((w'.setFut p { value := some v, callbacks := [] }).log
              (Event.markCompleted p v))).2.setFut w.nextFut
          { value := some v, callbacks := [] }).log (Event.markCompleted w.nextFut v))) := by
  have hb := bind_pending (Tensor.recordFunction s) p w hp (by rw [hpend])
  rw [hb.2.1, hpend] at hfp
  rw [hb.2.2.1] at hfq
  exact markCompleted_single fuel p w.nextFut s _ v w' (Nat.ne_of_lt hp) hfp hfq rfl rfl

theorem setFut_log_heap (w : World) (q : Nat) (f : Future) (e : Event) :
    ((w.setFut q f).log e).heap = w.heap := rfl

theorem resolved_events (w' : World) (c : FutureProfilingFunc) (s q : Nat) (v : IValue)
    (hh : c.handle = Tensor.recordFunction s) :
    (((futureProfilingFunc c
        ((w'.setFut c.fut { value := some v, callbacks := [] }).log
          (Event.markCompleted c.fut v))).2.setFut q
      { value := some v, callbacks := [] }).log (Event.markCompleted q v)).events =
    w'.events ++ [Event.markCompleted c.fut v, Event.endCalled s c.tls_state] ++
      (if (w'.heap s).active = true then [Event.endCallbacks s c.tls_state] else []) ++
      [Event.constValue c.fut v, Event.markCompleted q v] := by
  have hv : ((((w'.setFut c.fut { value := some v, callbacks := [] }).log
      (Event.markCompleted c.fut v))).futures c.fut).value = some v := by
    simp [World.setFut, World.log]
  show (futureProfilingFunc c _).2.events ++ [Event.markCompleted q v] = _
  rw [body_events c s v _ hh hv]
  simp [World.setFut, World.log]

/-! ## The claims -/

/-- Claim C1 (repair on open): when the thread's current span `m` is an
allocated, active span named "profiler::_record_function_enter",
`record_function_enter n` ends `m` first (its end callbacks are the first
events of the call) and only then names and registers the new span (its start
callbacks come after): the new span is a `USER_SCOPE` span named `n` whose
parent is the parent of `m`, it is the thread's current span afterwards, and
`m` is no longer active. The `RecordFunction` object itself is allocated on
line 20, before the repair, and stays inert until `before(name)`. -/
theorem record_function_enter_repair_on_open (w : World) (m : Nat) (n : String)
    (hcur : w.current = some m) (halloc : m < w.nextRec)
    (hname : (w.heap m).name = "profiler::_record_function_enter")
    (hact : (w.heap m).active = true) :
    (record_function_enter n w).1 = Tensor.recordFunction w.nextRec ∧
    (record_function_enter n w).2.heap w.nextRec =
      { scope := RecordScope.USER_SCOPE, name := n, parent := (w.heap m).parent, active := true } ∧
    (record_function_enter n w).2.current = some w.nextRec ∧
    ((record_function_enter n w).2.heap m).active = false ∧
    (record_function_enter n w).2.events =
      w.events ++ [Event.endCalled m w.tls, Event.endCallbacks m w.tls,
        Event.startCallbacks w.nextRec w.tls] :=
  enter_on_reserved_current w m n hcur halloc hname hact

theorem record_function_enter_repair_on_open_witness :
    worldInEnterOp.current = some 1 ∧
    (worldInEnterOp.heap 1).name = "profiler::_record_function_enter" ∧
    (worldInEnterOp.heap 1).parent = some 0 ∧
    (record_function_enter "work" worldInEnterOp).1 = Tensor.recordFunction 2 ∧
    (record_function_enter "work" worldInEnterOp).2.heap 2 =
      { scope := RecordScope.USER_SCOPE, name := "work", parent := some 0, active := true } ∧
    (record_function_enter "work" worldInEnterOp).2.current = some 2 ∧
    ((record_function_enter "work" worldInEnterOp).2.heap 1).active = false ∧
    (record_function_enter "work" worldInEnterOp).2.events =
      [Event.endCalled 1 { ident := 7 }, Event.endCallbacks 1 { ident := 7 },
        Event.startCallbacks 2 { ident := 7 }] :=
  ⟨rfl, rfl, rfl,
    record_function_enter_repair_on_open worldInEnterOp 1 "work" rfl (by decide) rfl rfl⟩

/-- Claim C2 (exactly-once closure): for the handle that
`record_function_enter n` returns in any world, and any later sequence of
enter and exit calls on the thread that closes that handle at least once
(so any number k >= 1 of `record_function_exit` calls on it, interleaved
with anything), the end callbacks of its span fire exactly once in total:
the count in the final trace is the count before the scope was opened plus
one. -/
theorem end_callbacks_fire_exactly_once (w : World) (n : String) (cs : List Call)
    (hexit : Call.exit (record_function_enter n w).1 ∈ cs) :
    endCallbacksFired w.nextRec (runCalls cs (record_function_enter n w).2).events =
      endCallbacksFired w.nextRec w.events + 1 := by
  have h := runCalls_closureCount w.nextRec (endCallbacksFired w.nextRec w.events + 1) cs
    (record_function_enter n w).2 (enter_closureCount n w) (Or.inr hexit)
  have hc := h.1.2
  rw [h.2] at hc
  simpa using hc

theorem end_callbacks_fire_exactly_once_witness :
    Call.exit (record_function_enter "work" worldInEnterOp).1 ∈
      [Call.exit (Tensor.recordFunction 2), Call.enter "other",
        Call.exit (Tensor.recordFunction 2), Call.exit (Tensor.recordFunction 2)] ∧
    endCallbacksFired 2
      (runCalls
        [Call.exit (Tensor.recordFunction 2), Call.enter "other",
          Call.exit (Tensor.recordFunction 2), Call.exit (Tensor.recordFunction 2)]
        (record_function_enter "work" worldInEnterOp).2).events = 1 :=
  ⟨List.mem_cons_self _ _,
    end_callbacks_fire_exactly_once worldInEnterOp "work" _ (List.mem_cons_self _ _)⟩

/-- Claim C3 (value transparency): bind the scope at `s` to a pending result
`p` that has no other continuation, in world `w`; in any later world `w2`
that still holds `p` and the returned result as the binding left them,
resolving `p` with `v` (with fuel at least 2) succeeds and leaves the
returned result resolved with exactly `v`; and whenever `p` holds `v` the
continuation body returns `v`. -/
theorem call_end_callbacks_on_fut_value_transparent (w w2 : World) (s p : Nat) (v : IValue)
    (fuel : Nat) (hp : p < w.nextFut)
    (hpend : w.futures p = { value := none, callbacks := [] })
    (hfp : w2.futures p =
      (_call_end_callbacks_on_fut (Tensor.recordFunction s) p w).2.futures p)
    (hfq : w2.futures w.nextFut =
      (_call_end_callbacks_on_fut (Tensor.recordFunction s) p w).2.futures w.nextFut) :
    (_call_end_callbacks_on_fut (Tensor.recordFunction s) p w).1 = Except.ok w.nextFut ∧
    (∃ wf, Future.markCompleted (fuel + 2) p v w2 = some (Except.ok (), wf) ∧
      (wf.futures p).value = some v ∧ (wf.futures w.nextFut).value = some v) ∧
    (∀ wr : World, (wr.futures p).value = some v →
      (futureProfilingFunc
        { fut := p, handle := Tensor.recordFunction s, tls_state := w.tls } wr).1
        = Except.ok v) := by
  refine ⟨(bind_pending _ p w hp (by rw [hpend])).1,
    ⟨_, resolve_after_bind w w2 s p v fuel hp hpend hfp hfq, ?_, ?_⟩, ?_⟩
  · have hv : ((((w2.setFut p { value := some v, callbacks := [] }).log
        (Event.markCompleted p v))).futures p).value = some v := by
      simp [World.setFut, World.log]
    have hf := body_futures { fut := p, handle := Tensor.recordFunction s, tls_state := w.tls }
      s v _ rfl hv
    show ((if p = w.nextFut then _ else (futureProfilingFunc _ _).2.futures p)).value = some v
    rw [if_neg (Nat.ne_of_lt hp), hf]
    exact hv
  · simp [World.setFut, World.log]
  · intro wr hv
    rw [body_of_handle _ s v wr rfl hv]

theorem call_end_callbacks_on_fut_value_transparent_witness :
    (0 < worldWithPending.nextFut ∧
      worldWithPending.futures 0 = { value := none, callbacks := [] }) ∧
    (_call_end_callbacks_on_fut (Tensor.recordFunction 0) 0 worldWithPending).1 = Except.ok 1 ∧
    (∃ wf, Future.markCompleted 2 0 (IValue.Int 42) worldAfterBind = some (Except.ok (), wf) ∧
      (wf.futures 0).value = some (IValue.Int 42) ∧
      (wf.futures 1).value = some (IValue.Int 42)) ∧
    (∀ wr : World, (wr.futures 0).value = some (IValue.Int 42) →
      (futureProfilingFunc boundBody wr).1 = Except.ok (IValue.Int 42)) :=
  ⟨⟨by decide, rfl⟩,
    call_end_callbacks_on_fut_value_transparent worldWithPending worldAfterBind 0 0
      (IValue.Int 42) 0 (by decide) rfl rfl rfl⟩

/-- Claim C4 (close before resolve): bind the scope at `s` to a pending result
`p` with no other continuation; in any later world `w2` that still holds the
two pending results as the binding left them and in which the span is still
open, resolving `p` with `v` (fuel at least 2) succeeds, and in the trace the
call of `end` on the span and the firing of its end callbacks come strictly
before the body reads the value it returns and before the returned result
resolves; the span is inactive afterwards. -/
theorem call_end_callbacks_on_fut_closes_before_resolve (w w2 : World) (s p : Nat)
    (v : IValue) (fuel : Nat) (hp : p < w.nextFut)
    (hpend : w.futures p = { value := none, callbacks := [] })
    (hfp : w2.futures p =
      (_call_end_callbacks_on_fut (Tensor.recordFunction s) p w).2.futures p)
    (hfq : w2.futures w.nextFut =
      (_call_end_callbacks_on_fut (Tensor.recordFunction s) p w).2.futures w.nextFut)
    (hopen : (w2.heap s).active = true) :
    ∃ wf, Future.markCompleted (fuel + 2) p v w2 = some (Except.ok (), wf) ∧
      wf.events = w2.events ++
        [Event.markCompleted p v, Event.endCalled s w.tls, Event.endCallbacks s w.tls,
          Event.constValue p v, Event.markCompleted w.nextFut v] ∧
      (wf.heap s).active = false ∧ (wf.futures w.nextFut).value = some v := by
  refine ⟨_, resolve_after_bind w w2 s p v fuel hp hpend hfp hfq, ?_, ?_, ?_⟩
  · rw [resolved_events w2 { fut := p, handle := Tensor.recordFunction s, tls_state := w.tls }
      s w.nextFut v rfl]
    simp [hopen]
  · have hv : ((((w2.setFut p { value := some v, callbacks := [] }).log
        (Event.markCompleted p v))).futures p).value = some v := by
      simp [World.setFut, World.log]
    rw [setFut_log_heap, body_heap
      { fut := p, handle := Tensor.recordFunction s, tls_state := w.tls } s v _ rfl hv]
    simp
  · simp [World.setFut, World.log]

theorem call_end_callbacks_on_fut_closes_before_resolve_witness :
    (worldAfterBind.heap 0).active = true ∧
    ∃ wf, Future.markCompleted 2 0 (IValue.Int 42) worldAfterBind = some (Except.ok (), wf) ∧
      wf.events =
        [Event.markCompleted 0 (IValue.Int 42), Event.endCalled 0 { ident := 7 },
          Event.endCallbacks 0 { ident := 7 }, Event.constValue 0 (IValue.Int 42),
          Event.markCompleted 1 (IValue.Int 42)] ∧
      (wf.heap 0).active = false ∧ (wf.futures 1).value = some (IValue.Int 42) :=
  ⟨rfl,
    call_end_callbacks_on_fut_closes_before_resolve worldWithPending worldAfterBind 0 0
      (IValue.Int 42) 0 (by decide) rfl rfl rfl rfl⟩

/-- Claim C5, as amended (double invocation): for a continuation body whose
captured handle holds the span at `s`, in a world where its pending result
holds `v`, a second invocation after the first succeeds again: it returns
`v`, it calls `end` on the span once more, which fires no end callbacks on
the already ended span, and nothing else happens. The assertion of the body
fails if and only if the captured handle is undefined (for every body and
every world, whatever else the handle holds), and then the world is left
exactly as it was: nothing has been ended. -/
theorem futureProfilingFunc_second_invocation (c : FutureProfilingFunc) (s : Nat)
    (v : IValue) (w : World) (hh : c.handle = Tensor.recordFunction s)
    (hv : (w.futures c.fut).value = some v) :
    (futureProfilingFunc c w).1 = Except.ok v ∧
    (futureProfilingFunc c (futureProfilingFunc c w).2).1 = Except.ok v ∧
    (futureProfilingFunc c (futureProfilingFunc c w).2).2.events =
      (futureProfilingFunc c w).2.events ++
        [Event.endCalled s c.tls_state, Event.constValue c.fut v] ∧
    endCallbacksFired s (futureProfilingFunc c (futureProfilingFunc c w).2).2.events =
      endCallbacksFired s (futureProfilingFunc c w).2.events ∧
    (∀ (c2 : FutureProfilingFunc) (w2 : World), c2.handle = Tensor.undefinedTensor →
      futureProfilingFunc c2 w2 =
        (Except.error (Fatal.internalAssert futureProfilingFunc.assertMessage), w2)) ∧
    (∀ (c2 : FutureProfilingFunc) (w2 : World),
      (futureProfilingFunc c2 w2).1 =
          Except.error (Fatal.internalAssert futureProfilingFunc.assertMessage) ↔
        c2.handle = Tensor.undefinedTensor) := by
  have hv2 : ((futureProfilingFunc c w).2.futures c.fut).value = some v := by
    rw [body_futures c s v w hh hv]; exact hv
  have hclosed : ((futureProfilingFunc c w).2.heap s).active = false := by
    rw [body_heap c s v w hh hv]; simp
  have hev : (futureProfilingFunc c (futureProfilingFunc c w).2).2.events =
      (futureProfilingFunc c w).2.events ++
        [Event.endCalled s c.tls_state, Event.constValue c.fut v] := by
    rw [body_events c s v _ hh hv2]
    simp [hclosed]
  refine ⟨by rw [body_of_handle c s v w hh hv], by rw [body_of_handle c s v _ hh hv2], hev, ?_, ?_,
    body_assert_iff_undefined⟩
  · rw [hev, fired_append]
    simp [endCallbacksFired, Event.isEndCallbacksOf]
  · intro c2 w2 hc2
    simp [futureProfilingFunc, hc2, Tensor.defined]

theorem futureProfilingFunc_second_invocation_witness :
    (boundBody.handle = Tensor.recordFunction 0 ∧
      (worldResolved.futures boundBody.fut).value = some (IValue.Int 42)) ∧
    (futureProfilingFunc boundBody worldResolved).1 = Except.ok (IValue.Int 42) ∧
    (futureProfilingFunc boundBody (futureProfilingFunc boundBody worldResolved).2).1 =
      Except.ok (IValue.Int 42) ∧
    (futureProfilingFunc boundBody (futureProfilingFunc boundBody worldResolved).2).2.events =
      (futureProfilingFunc boundBody worldResolved).2.events ++
        [Event.endCalled 0 { ident := 7 }, Event.constValue 0 (IValue.Int 42)] ∧
    endCallbacksFired 0
        (futureProfilingFunc boundBody (futureProfilingFunc boundBody worldResolved).2).2.events =
      endCallbacksFired 0 (futureProfilingFunc boundBody worldResolved).2.events ∧
    (∀ (c2 : FutureProfilingFunc) (w2 : World), c2.handle = Tensor.undefinedTensor →
      futureProfilingFunc c2 w2 =
        (Except.error (Fatal.internalAssert futureProfilingFunc.assertMessage), w2)) ∧
    (∀ (c2 : FutureProfilingFunc) (w2 : World),
      (futureProfilingFunc c2 w2).1 =
          Except.error (Fatal.internalAssert futureProfilingFunc.assertMessage) ↔
        c2.handle = Tensor.undefinedTensor) :=
  ⟨⟨rfl, rfl⟩,
    futureProfilingFunc_second_invocation boundBody 0 (IValue.Int 42) worldResolved rfl rfl⟩

/-- Claim C5 as stated fails: the body that binding builds in
`worldWithPending` captures a defined handle; invoked once where its pending
result holds 42 it returns 42, and invoked a second time it does not fail
with an assertion error: it returns 42 again and `end` is called on the span
again (a second `endCalled` event). -/
theorem futureProfilingFunc_second_invocation_not_fatal :
    ((_call_end_callbacks_on_fut (Tensor.recordFunction 0) 0 worldWithPending).2.futures
      0).callbacks = [{ cb := boundBody, target := 1 }] ∧
    boundBody.handle.defined = true ∧
    (futureProfilingFunc boundBody worldResolved).1 = Except.ok (IValue.Int 42) ∧
    (futureProfilingFunc boundBody (futureProfilingFunc boundBody worldResolved).2).1 =
      Except.ok (IValue.Int 42) ∧
    ¬ (∃ msg, (futureProfilingFunc boundBody (futureProfilingFunc boundBody worldResolved).2).1
        = Except.error (Fatal.internalAssert msg)) ∧
    (futureProfilingFunc boundBody (futureProfilingFunc boundBody worldResolved).2).2.events =
      [Event.endCalled 0 { ident := 7 }, Event.endCallbacks 0 { ident := 7 },
        Event.constValue 0 (IValue.Int 42),
        Event.endCalled 0 { ident := 7 }, Event.constValue 0 (IValue.Int 42)] := by
  refine ⟨by decide, by decide, rfl, rfl, ?_, by decide⟩
  have h : (futureProfilingFunc boundBody (futureProfilingFunc boundBody worldResolved).2).1
      = Except.ok (IValue.Int 42) := rfl
  rw [h]
  rintro ⟨msg, hmsg⟩
  cases hmsg

/-- Claim C6 (stack discipline): from any thread state and for every sequence
of `record_function_enter` / `record_function_exit` calls that closes handles
in LIFO order, every span the sequence creates has, at the end of the
sequence, as parent exactly the span that was the thread's current span
immediately before its creation, that is, when `rec->before(name)` (line 30)
registered it, after the repair step of lines 21-29. Moreover, when no scope
is opened under the reserved name of the enter operator and the thread's
current span at the start is allocated and not so named, the handles and
parents are the nesting computed from the calls alone: every scope lies under
the innermost scope still open, closed scopes having been popped by
`record_function_exit`. -/
theorem record_function_stack_discipline (calls : List ScopeCall) (w : World) :
    (∀ e ∈ (runScoped calls [] w).1, ∃ a, e.1 = Tensor.recordFunction a ∧
      ((runScoped calls [] w).2.heap a).parent =
        record_function_enter.activeBeforeCreation e.2) ∧
    ((∀ n, ScopeCall.open_scope n ∈ calls → n ≠ "profiler::_record_function_enter") →
      (∀ m, w.current = some m →
        m < w.nextRec ∧ (w.heap m).name ≠ "profiler::_record_function_enter") →
      (runScoped calls [] w).1.map
          (fun e => (e.1, parentOfHandle (runScoped calls [] w).2 e.1)) =
        expectedNesting calls [] w.nextRec w.current) :=
  ⟨runScoped_parent_is_active calls [] w,
    fun hnames hbase => runScoped_nesting calls [] w w.current hnames trivial rfl hbase⟩

theorem record_function_stack_discipline_witness :
    ((∀ n, ScopeCall.open_scope n ∈
        [ScopeCall.open_scope "a", ScopeCall.open_scope "b", ScopeCall.close_scope,
          ScopeCall.open_scope "c", ScopeCall.close_scope, ScopeCall.close_scope] →
        n ≠ "profiler::_record_function_enter") ∧
      (∀ m, worldWithPending.current = some m →
        m < worldWithPending.nextRec ∧
          (worldWithPending.heap m).name ≠ "profiler::_record_function_enter")) ∧
    (runScoped
        [ScopeCall.open_scope "a", ScopeCall.open_scope "b", ScopeCall.close_scope,
          ScopeCall.open_scope "c", ScopeCall.close_scope, ScopeCall.close_scope]
        [] worldWithPending).1.map
      (fun e => (e.1, parentOfHandle
        (runScoped
          [ScopeCall.open_scope "a", ScopeCall.open_scope "b", ScopeCall.close_scope,
            ScopeCall.open_scope "c", ScopeCall.close_scope, ScopeCall.close_scope]
          [] worldWithPending).2 e.1)) =
      [(Tensor.recordFunction 1, some 0), (Tensor.recordFunction 2, some 1),
        (Tensor.recordFunction 3, some 1)] ∧
    record_function_enter.activeBeforeCreation worldInEnterOp = some 0 ∧
    (∀ e ∈ (runScoped [ScopeCall.open_scope "work"] [] worldInEnterOp).1,
      ∃ a, e.1 = Tensor.recordFunction a ∧
        ((runScoped [ScopeCall.open_scope "work"] [] worldInEnterOp).2.heap a).parent =
          record_function_enter.activeBeforeCreation e.2) :=
  have hnames : ∀ n, ScopeCall.open_scope n ∈
      [ScopeCall.open_scope "a", ScopeCall.open_scope "b", ScopeCall.close_scope,
        ScopeCall.open_scope "c", ScopeCall.close_scope, ScopeCall.close_scope] →
      n ≠ "profiler::_record_function_enter" := by
    intro n hn
    simp at hn
    rcases hn with rfl | rfl | rfl <;> decide
  have hbase : ∀ m, worldWithPending.current = some m →
      m < worldWithPending.nextRec ∧
        (worldWithPending.heap m).name ≠ "profiler::_record_function_enter" := by
    intro m hm
    have h0 : m = 0 := (Option.some.inj hm).symm
    subst h0
    exact ⟨by decide, by decide⟩
  ⟨⟨hnames, hbase⟩,
    (record_function_stack_discipline _ worldWithPending).2 hnames hbase,
    by decide,
    (record_function_stack_discipline [ScopeCall.open_scope "work"] worldInEnterOp).1⟩

/-- Claim C7 (repair on close): when the thread's current span `m` is an
active span named "profiler::_record_function_exit", `record_function_exit`
on a handle holding the span at `s` succeeds, calls `end` on `m` first (its
end callbacks fire) and only then on `s`; both spans are inactive
afterwards, and the end callbacks of `s` fire after those of `m`: they fire in
this call exactly when `s` is another span than `m` and was still open. -/
theorem record_function_exit_repair_on_close (w : World) (s m : Nat)
    (hcur : w.current = some m)
    (hname : (w.heap m).name = "profiler::_record_function_exit")
    (hact : (w.heap m).active = true) :
    (record_function_exit (Tensor.recordFunction s) w).1 = Except.ok () ∧
    ((record_function_exit (Tensor.recordFunction s) w).2.heap m).active = false ∧
    ((record_function_exit (Tensor.recordFunction s) w).2.heap s).active = false ∧
    (record_function_exit (Tensor.recordFunction s) w).2.events =
      w.events ++ [Event.endCalled m w.tls, Event.endCallbacks m w.tls,
        Event.endCalled s w.tls] ++
        (if s ≠ m ∧ (w.heap s).active = true then [Event.endCallbacks s w.tls] else []) ∧
    (s ≠ m → (w.heap s).active = true →
      (record_function_exit (Tensor.recordFunction s) w).2.events =
        w.events ++ [Event.endCalled m w.tls, Event.endCallbacks m w.tls,
          Event.endCalled s w.tls, Event.endCallbacks s w.tls]) := by
  have hev : (record_function_exit (Tensor.recordFunction s) w).2.events =
      w.events ++ [Event.endCalled m w.tls, Event.endCallbacks m w.tls,
        Event.endCalled s w.tls] ++
        (if s ≠ m ∧ (w.heap s).active = true then [Event.endCallbacks s w.tls] else []) := by
    rw [exit_of_handle, exit_repair_of_name w m hcur hname]
    by_cases hsm : s = m
    · subst hsm
      simp [end_events, end_heap, hact]
    · by_cases hs : (w.heap s).active = true <;> simp [end_events, end_heap, hact, hsm, hs]
  refine ⟨rfl, ?_, ?_, hev, ?_⟩
  · rw [exit_of_handle, exit_repair_of_name w m hcur hname]
    simp [end_active]
  · rw [exit_of_handle]
    simp [end_active]
  · intro hsm hs
    rw [hev]
    simp [hsm, hs]

theorem record_function_exit_repair_on_close_witness :
    (worldInExitOp.current = some 1 ∧
      (worldInExitOp.heap 1).name = "profiler::_record_function_exit" ∧
      (worldInExitOp.heap 1).active = true ∧ (worldInExitOp.heap 0).active = true) ∧
    ((record_function_exit (Tensor.recordFunction 0) worldInExitOp).2.heap 1).active = false ∧
    ((record_function_exit (Tensor.recordFunction 0) worldInExitOp).2.heap 0).active = false ∧
    (record_function_exit (Tensor.recordFunction 0) worldInExitOp).2.events =
      [Event.endCalled 1 { ident := 7 }, Event.endCallbacks 1 { ident := 7 },
        Event.endCalled 0 { ident := 7 }, Event.endCallbacks 0 { ident := 7 }] :=
  ⟨⟨rfl, rfl, rfl, rfl⟩,
    (record_function_exit_repair_on_close worldInExitOp 0 1 rfl rfl rfl).2.1,
    (record_function_exit_repair_on_close worldInExitOp 0 1 rfl rfl rfl).2.2.1,
    (record_function_exit_repair_on_close worldInExitOp 0 1 rfl rfl rfl).2.2.2.2
      (by decide) rfl⟩

/-- Claim C8 (context fidelity): bind the scope at `s` to a pending result
`p` with no other continuation on a thread whose context is `w.tls`; the
continuation registered carries that snapshot. When `p` is resolved in any
later world `w2` that still holds the two pending results as the binding left
them, on a thread with whatever context `w2.tls`, the call of `end` on the
span and its end callbacks run under the bind-time context `w.tls`, and the
running thread's context is `w2.tls` again afterwards. The body puts the
running thread's context back however it is left. -/
theorem call_end_callbacks_on_fut_context_fidelity (w w2 : World) (s p : Nat) (v : IValue)
    (fuel : Nat) (hp : p < w.nextFut)
    (hpend : w.futures p = { value := none, callbacks := [] })
    (hfp : w2.futures p =
      (_call_end_callbacks_on_fut (Tensor.recordFunction s) p w).2.futures p)
    (hfq : w2.futures w.nextFut =
      (_call_end_callbacks_on_fut (Tensor.recordFunction s) p w).2.futures w.nextFut) :
    ((_call_end_callbacks_on_fut (Tensor.recordFunction s) p w).2.futures p).callbacks =
      [{ cb := { fut := p, handle := Tensor.recordFunction s, tls_state := w.tls },
         target := w.nextFut }] ∧
    (∃ wf, Future.markCompleted (fuel + 2) p v w2 = some (Except.ok (), wf) ∧
      wf.tls = w2.tls ∧
      wf.events = w2.events ++ [Event.markCompleted p v, Event.endCalled s w.tls] ++
        (if (w2.heap s).active = true then [Event.endCallbacks s w.tls] else []) ++
        [Event.constValue p v, Event.markCompleted w.nextFut v]) ∧
    (∀ (c : FutureProfilingFunc) (wB : World), (futureProfilingFunc c wB).2.tls = wB.tls) := by
  refine ⟨?_, ⟨_, resolve_after_bind w w2 s p v fuel hp hpend hfp hfq, ?_, ?_⟩, body_tls⟩
  · rw [(bind_pending _ p w hp (by rw [hpend])).2.1, hpend]
    rfl
  · show (futureProfilingFunc _ _).2.tls = w2.tls
    rw [body_tls]
    rfl
  · exact resolved_events w2 { fut := p, handle := Tensor.recordFunction s, tls_state := w.tls }
      s w.nextFut v rfl

theorem call_end_callbacks_on_fut_context_fidelity_witness :
    (worldWithPending.tls = { ident := 7 } ∧ worldAfterBind.tls = { ident := 9 }) ∧
    ((_call_end_callbacks_on_fut (Tensor.recordFunction 0) 0 worldWithPending).2.futures
      0).callbacks = [{ cb := boundBody, target := 1 }] ∧
    (∃ wf, Future.markCompleted 2 0 (IValue.Int 42) worldAfterBind = some (Except.ok (), wf) ∧
      wf.tls = { ident := 9 } ∧
      wf.events = [Event.markCompleted 0 (IValue.Int 42), Event.endCalled 0 { ident := 7 },
        Event.endCallbacks 0 { ident := 7 }, Event.constValue 0 (IValue.Int 42),
        Event.markCompleted 1 (IValue.Int 42)]) ∧
    (∀ (c : FutureProfilingFunc) (wB : World), (futureProfilingFunc c wB).2.tls = wB.tls) :=
  ⟨⟨rfl, rfl⟩,
    call_end_callbacks_on_fut_context_fidelity worldWithPending worldAfterBind 0 0
      (IValue.Int 42) 0 (by decide) rfl rfl rfl⟩

/-- Claim C9 (fatal type error on a foreign payload): for every handle that
does not hold a `RecordFunction`, `record_function_exit` fails with the type
error of the downcast and the world is exactly the one it was called in: no
span was ended and the thread's current span is unchanged. -/
theorem record_function_exit_foreign_payload_fatal (handle : Tensor) (w : World)
    (hforeign : ∀ a, handle ≠ Tensor.recordFunction a) :
    record_function_exit handle w =
      (Except.error (Fatal.typeError "Expected temporary cpp type wrapper"), w) := by
  cases handle with
  | recordFunction a => exact absurd rfl (hforeign a)
  | undefinedTensor => rfl
  | foreign payload => rfl

theorem record_function_exit_foreign_payload_fatal_witness :
    (∀ a, Tensor.foreign 5 ≠ Tensor.recordFunction a) ∧
    record_function_exit (Tensor.foreign 5) worldInExitOp =
      (Except.error (Fatal.typeError "Expected temporary cpp type wrapper"), worldInExitOp) :=
  ⟨fun _ h => Tensor.noConfusion h,
    record_function_exit_foreign_payload_fatal (Tensor.foreign 5) worldInExitOp
      (fun _ h => Tensor.noConfusion h)⟩

/-- Claim C10 (name collision): in any world, after
`h1 = record_function_enter "profiler::_record_function_enter"` the span of
`h1` is open; a following `record_function_enter n`, for any `n`, ends that
span: its end callbacks fire inside the second call and it is inactive,
although `record_function_exit h1` was never called. -/
theorem record_function_enter_name_collision (w : World) (n : String) :
    (record_function_enter "profiler::_record_function_enter" w).1
      = Tensor.recordFunction w.nextRec ∧
    ((record_function_enter "profiler::_record_function_enter" w).2.heap w.nextRec).active
      = true ∧
    ((record_function_enter n
        (record_function_enter "profiler::_record_function_enter" w).2).2.heap
      w.nextRec).active = false ∧
    (record_function_enter n
        (record_function_enter "profiler::_record_function_enter" w).2).2.events =
      (record_function_enter "profiler::_record_function_enter" w).2.events ++
        [Event.endCalled w.nextRec w.tls, Event.endCallbacks w.nextRec w.tls,
          Event.startCallbacks (w.nextRec + 1) w.tls] := by
  have hf := enter_heap_new_fields "profiler::_record_function_enter" w
  have h := enter_on_reserved_current
    (record_function_enter "profiler::_record_function_enter" w).2 w.nextRec n
    (enter_current _ w) (by rw [enter_nextRec]; exact Nat.lt_succ_self _) hf.1 hf.2
  rw [enter_nextRec, enter_tls] at h
  exact ⟨rfl, hf.2, h.2.2.2.1, h.2.2.2.2⟩

end profiler
